import Mathlib

/-!
Verification of the timing-synchronization core of the video dubbing pipeline.

The Python source is embedded shallowly: times are exact rationals (`ℚ`),
speaker tags are integers, fallible stages return `Except`/`Option`, and the
word-stream segmentation loop of `transcribe_chunk_batch` becomes an explicit
fold over a state record mirroring the loop variables.
-/

namespace VideoDub

/-- A word-level recognition token (`alternative.words` element in
`src/core/transcribe.py`): `word`, `start_offset`, `end_offset` (seconds),
`speaker_tag`. -/
structure Word where
  word : String
  start_offset : ℚ
  end_offset : ℚ
  speaker_tag : ℤ
deriving DecidableEq, Repr

/-- `speaker_id = int(speaker_tag) if speaker_tag else 0`
(src/core/transcribe.py line 237). On integer tags this is the identity,
written out faithfully. -/
def speakerId (w : Word) : ℤ :=
  if w.speaker_tag ≠ 0 then w.speaker_tag else 0

/-- A segment as produced by the word-scan of `transcribe_chunk_batch`
(src/core/transcribe.py lines 252-279): `start`, `end`, `speaker`,
`transcript`.  The embedding additionally records the exact token list the
segment was built from (`tokens`); `transcript` is the source's
`" ".join(segment_words)` over those tokens' texts. -/
structure SegmentOut where
  start : ℚ
  end_ : ℚ
  speaker : ℤ
  transcript : String
  tokens : List Word
deriving DecidableEq, Repr

/-- The loop state of the word scan in `transcribe_chunk_batch`
(src/core/transcribe.py lines 226-229): `current_speaker`, `segment_words`
(kept as the tokens themselves rather than just their texts),
`segment_start`, `prev_word_end`, plus the `segments` output list. -/
structure SegState where
  current_speaker : ℤ
  segment_words : List Word
  segment_start : ℚ
  prev_word_end : ℚ
  segments : List SegmentOut
deriving DecidableEq, Repr

/-- Finalizing the in-progress segment
(src/core/transcribe.py lines 254-259 and 274-279):
`{"start": segment_start, "end": prev_word_end, "speaker": current_speaker,
"transcript": " ".join(segment_words)}`. -/
def finalizeSeg (st : SegState) : SegmentOut :=
  { start := st.segment_start
    end_ := st.prev_word_end
    speaker := st.current_speaker
    transcript := String.intercalate " " (st.segment_words.map Word.word)
    tokens := st.segment_words }

/-- The guarded silence gap of src/core/transcribe.py line 246:
`(word_start - prev_word_end) if prev_word_end > 0 else 0`. -/
def gapOf (prev_end word_start : ℚ) : ℚ :=
  if prev_end > 0 then word_start - prev_end else 0

/-- One iteration of `for word in alternative.words`
(src/core/transcribe.py lines 235-270), including the guarded gap
`silence_gap = (word_start - prev_word_end) if prev_word_end > 0 else 0`
(see `gapOf`), the three split conditions, and both branches of the split
test. -/
def stepWord (st : SegState) (w : Word) : SegState :=
  let speaker_id := speakerId w
  let word_start := w.start_offset
  let word_end := w.end_offset
  let speaker_changed := speaker_id ≠ st.current_speaker
  let silence_gap : ℚ := gapOf st.prev_word_end word_start
  let is_pause := silence_gap > 0.7
  let is_too_long := word_start - st.segment_start > 30.0 ∧ silence_gap > 0.3
  if (speaker_changed ∨ is_pause ∨ is_too_long) ∧ st.segment_words ≠ [] then
    { current_speaker := speaker_id
      segment_words := [w]
      segment_start := word_start
      prev_word_end := word_end
      segments := st.segments ++ [finalizeSeg st] }
  else if st.segment_words = [] then
    { current_speaker := speaker_id
      segment_words := [w]
      segment_start := word_start
      prev_word_end := word_end
      segments := st.segments }
  else
    { st with
      segment_words := st.segment_words ++ [w]
      prev_word_end := word_end }

/-- The whole word-scan of `transcribe_chunk_batch`
(src/core/transcribe.py lines 225-279): guarded on a non-empty word list
(`if alternative.words:`), initial state `current_speaker = 0`,
`segment_start = words[0].start_offset`, `prev_word_end = segment_start`,
then the loop, then the final flush `if segment_words: segments.append(...)`. -/
def buildSegments (words : List Word) : List SegmentOut :=
  match words with
  | [] => []
  | w0 :: _ =>
    let st0 : SegState :=
      { current_speaker := 0
        segment_words := []
        segment_start := w0.start_offset
        prev_word_end := w0.start_offset
        segments := [] }
    let stF := words.foldl stepWord st0
    if stF.segment_words ≠ [] then stF.segments ++ [finalizeSeg stF] else stF.segments

/-- The condition under which the scan may append `cur` to a segment that
opened at `first` and whose previous token is `prev`: no speaker change, no
pause split, no soft length split — with the code's guarded gap. -/
def okNextG (first prev cur : Word) : Prop :=
  speakerId cur = speakerId first ∧
  gapOf prev.end_offset cur.start_offset ≤ 0.7 ∧
  ¬(cur.start_offset - first.start_offset > 30.0 ∧ gapOf prev.end_offset cur.start_offset > 0.3)

instance (first prev cur : Word) : Decidable (okNextG first prev cur) := by
  unfold okNextG; infer_instance

/-- Every consecutive pair in `prev :: rest` (relative to the segment's first
token `first`) satisfies `okNextG`. -/
def chainFrom (first : Word) : Word → List Word → Prop
  | _, [] => True
  | prev, cur :: rest => okNextG first prev cur ∧ chainFrom first cur rest

/-- A segment's token list is internally boundary-free (w.r.t. the guarded gap). -/
def tokensOk : List Word → Prop
  | [] => True
  | t0 :: rest => chainFrom t0 t0 rest

/-- `prev` and `cur` occur consecutively in `l`. -/
def adjacentIn (l : List Word) (prev cur : Word) : Prop :=
  ∃ i, l.get? i = some prev ∧ l.get? (i + 1) = some cur

/-- C1's property as the claim states it: no output segment contains two
consecutive tokens separated by a speaker-change, a pause > 0.7s, or a
(span > 30s ∧ gap > 0.3s) boundary, where the gap is the unguarded
`cur.start_offset - prev.end_offset`. -/
def boundaryFree (words : List Word) : Prop :=
  ∀ s ∈ buildSegments words, ∀ t0 prev cur,
    s.tokens.head? = some t0 → adjacentIn s.tokens prev cur →
      speakerId cur = speakerId t0 ∧
      cur.start_offset - prev.end_offset ≤ 0.7 ∧
      ¬(cur.start_offset - t0.start_offset > 30.0 ∧ cur.start_offset - prev.end_offset > 0.3)

/-- Shape of a finalized segment (claim C2): `start`/`speaker` from the first
token, `end` from the last token, transcript joined with single spaces. -/
def SegShape (s : SegmentOut) : Prop :=
  s.tokens ≠ [] ∧
  (∀ t0, s.tokens.head? = some t0 → s.start = t0.start_offset ∧ s.speaker = speakerId t0) ∧
  (∀ tl, s.tokens.getLast? = some tl → s.end_ = tl.end_offset) ∧
  s.transcript = String.intercalate " " (s.tokens.map Word.word)

/-- Invariant of the word-scan loop relating the state to the prefix `done`
of tokens already processed. -/
structure SegInv (done : List Word) (st : SegState) : Prop where
  partition : st.segments.flatMap SegmentOut.tokens ++ st.segment_words = done
  shape : ∀ s ∈ st.segments, SegShape s
  chain : ∀ s ∈ st.segments, tokensOk s.tokens
  openShape : ∀ t0, st.segment_words.head? = some t0 →
    st.segment_start = t0.start_offset ∧ st.current_speaker = speakerId t0 ∧
    tokensOk st.segment_words
  openLast : ∀ tl, st.segment_words.getLast? = some tl → st.prev_word_end = tl.end_offset

/-- A pipeline segment dict as it flows between stages: `start`, `end`,
`speaker`, `transcript`, and the optional `emotion` key added by translation
(absent — `none` — on segments fresh out of transcription). -/
structure Segment where
  start : ℚ
  end_ : ℚ
  speaker : ℤ
  transcript : String
  emotion : Option String
deriving DecidableEq, Repr

/-- View of a finalized scan segment as a pipeline segment (the dicts built in
src/core/transcribe.py lines 254-259 carry no `emotion` key). -/
def toSegment (s : SegmentOut) : Segment :=
  { start := s.start, end_ := s.end_, speaker := s.speaker
    transcript := s.transcript, emotion := none }

/-- The per-chunk timestamp adjustment of `transcribe_audio`
(src/core/transcribe.py lines 372-377): `seg["start"] += chunk["start_offset"];
seg["end"] += chunk["start_offset"]` applied to every segment the chunk's scan
produced. -/
def adjustSegments (offset : ℚ) (segs : List Segment) : List Segment :=
  segs.map fun s => { s with start := s.start + offset, end_ := s.end_ + offset }

/-- One entry of `translated_segments_map` in `Translator.translate_segments`
(src/core/translator.py lines 183-186): translated `text` plus `emotion`
(defaulted to "neutral" before insertion, line 177). -/
structure TransResult where
  text : String
  emotion : String
deriving DecidableEq, Repr

/-- Python dict lookup `original_id in translated_segments_map` /
`translated_segments_map[original_id]`, with the map modelled as an
association list. -/
def dictFind : List (ℚ × TransResult) → ℚ → Option TransResult
  | [], _ => none
  | (k, v) :: rest, id_ => if id_ = k then some v else dictFind rest id_

/-- The per-segment merge step of `Translator.translate_segments`
(src/core/translator.py lines 212-221): copy the segment; if its `start` key
is in the map, overwrite `transcript` and set `emotion`; otherwise keep it
unchanged (warning printed, source text retained). -/
def mergeOne (m : List (ℚ × TransResult)) (seg : Segment) : Segment :=
  match dictFind m seg.start with
  | some t => { seg with transcript := t.text, emotion := some t.emotion }
  | none => seg

/-- The merge loop of `Translator.translate_segments`
(src/core/translator.py lines 210-221): one output element per input segment,
in order. -/
def mergeTranslations (segments : List Segment) (m : List (ℚ × TransResult)) :
    List Segment :=
  segments.map (mergeOne m)

/-- `max_words = max(3, int(duration * 2.5))` needs Python `int()`, which
truncates toward zero. -/
def pyInt (q : ℚ) : ℤ :=
  if 0 ≤ q then ⌊q⌋ else ⌈q⌉

/-- The duration budget of `Translator.translate_segments`
(src/core/translator.py lines 93-97): `duration = end - start;
max_words = max(3, int(duration * 2.5))`. -/
def max_words (start end_ : ℚ) : ℤ :=
  max 3 (pyInt ((end_ - start) * 2.5))

/-- `BATCH_SIZE = 5` (src/core/translator.py line 111). -/
def BATCH_SIZE : ℕ := 5

/-- `MAX_RETRIES = 3` (src/core/translator.py line 154). -/
def MAX_RETRIES : ℕ := 3

/-- The batch slicing `detailed_segments[i : i + BATCH_SIZE]` for
`i in range(0, len, BATCH_SIZE)` (src/core/translator.py lines 113-114). -/
def toBatches (l : List Segment) : List (List Segment) :=
  if l = [] then [] else l.take BATCH_SIZE :: toBatches (l.drop BATCH_SIZE)
termination_by l.length
decreasing_by
  simp only [List.length_drop]
  refine Nat.sub_lt (List.length_pos.mpr (by assumption)) (by norm_num [BATCH_SIZE])

/-- Outcome of one `generate_content` call for a batch
(src/core/translator.py lines 159-196): an exception, or a parsed response
(`response.parsed`), where an empty parse — `None`/`[]`, both falsy at
line 171 — is modelled as the empty entry list. -/
inductive Outcome where
  | parsed (entries : List (ℚ × TransResult))
  | exn
deriving DecidableEq, Repr

/-- One iteration of `for attempt in range(MAX_RETRIES)`
(src/core/translator.py lines 157-205), threading the sleep trace (seconds)
and the successful entries.  An empty parse warns and sleeps a fixed 2s
(line 193); any still-unsuccessful attempt below the last one sleeps
`(2 ** attempt) * 5` (line 201); the last failed attempt only reports
permanent failure. -/
def attemptStep (o : ℕ → Outcome) (st : List ℚ × Option (List (ℚ × TransResult)))
    (attempt : ℕ) : List ℚ × Option (List (ℚ × TransResult)) :=
  match st.2 with
  | some r => (st.1, some r)
  | none =>
    let pre : List ℚ × Option (List (ℚ × TransResult)) :=
      match o attempt with
      | .parsed entries => if entries ≠ [] then ([], some entries) else ([2], none)
      | .exn => ([], none)
    match pre.2 with
    | some entries => (st.1 ++ pre.1, some entries)
    | none =>
      if attempt < MAX_RETRIES - 1 then (st.1 ++ pre.1 ++ [(2 : ℚ) ^ attempt * 5], none)
      else (st.1 ++ pre.1, none)

/-- The whole retry loop for one batch plus the 2s inter-batch cooldown on
success (src/core/translator.py lines 154-208): returns the sleep trace in
seconds and the entries of a successful response (`none` after permanent
failure). -/
def runBatchAttempts (o : ℕ → Outcome) : List ℚ × Option (List (ℚ × TransResult)) :=
  let r := (List.range MAX_RETRIES).foldl (attemptStep o) ([], none)
  match r.2 with
  | some entries => (r.1 ++ [2], some entries)
  | none => r

/-- A failed attempt in the sense of src/core/translator.py lines 170-196:
either the call raised, or the parsed response was falsy (`None`/`[]`). -/
def attemptFailed (o : Outcome) : Prop :=
  o = .exn ∨ o = .parsed []

/-- `target_duration = seg.get("end", 0.0) - seg.get("start", 0.0)`
(src/core/dubbing.py line 61). -/
def targetDuration (seg : Segment) : ℚ :=
  seg.end_ - seg.start

/-- `speed_factor = min(current_duration / target_duration, 1.3)`
(src/core/dubbing.py line 88). -/
def speed_factor (current_duration target_duration : ℚ) : ℚ :=
  min (current_duration / target_duration) 1.3

/-- The tempo-correction decision of `generate_dubbed_audio`
(src/core/dubbing.py lines 87-88): `some factor` exactly when
`current_duration > target_duration * 1.05 and target_duration > 0.5`,
otherwise `none` (clip kept unmodified). -/
def tempoDecision (current_duration target_duration : ℚ) : Option ℚ :=
  if current_duration > target_duration * 1.05 ∧ target_duration > 0.5 then
    some (speed_factor current_duration target_duration)
  else none

/-- The clip chosen for mixing (src/core/dubbing.py lines 84-98):
`final_segment_path` is the tempo-corrected file when the correction fires,
else the original TTS file. -/
def finalClip (current_duration target_duration : ℚ) (orig fast : String) : String :=
  match tempoDecision current_duration target_duration with
  | some _ => fast
  | none => orig

/-- A `tts_audio_files` entry (src/core/dubbing.py line 100):
`{"path": final_segment_path, "start": start_time}`. -/
structure TTSClip where
  path : String
  start : ℚ
deriving DecidableEq, Repr

/-- The mix specification that the ffmpeg `filter_complex` of
`generate_dubbed_audio` (src/core/dubbing.py lines 110-132) describes:
per-clip `adelay` values in ms (line 120: `delay_ms = int(tts["start"] * 1000)`),
the dialogue `amix` with `normalize=0` over all clips (line 129),
`[bg]volume=0.4` (line 130), `[dialogue]volume=2.5` (line 131), and the final
`amix=inputs=2:duration=first:normalize=0` whose first input is the
background (line 132). -/
structure MixSpec where
  delays : List ℤ
  dialogueInputs : ℕ
  dialogueNormalize : Bool
  bgGain : ℚ
  dialogueGain : ℚ
  finalNormalize : Bool
  durationFromBackground : Bool
deriving DecidableEq, Repr

/-- Builds the mix specification from the clip list
(src/core/dubbing.py lines 110-132). -/
def buildMixSpec (clips : List TTSClip) : MixSpec :=
  { delays := clips.map fun c => pyInt (c.start * 1000)
    dialogueInputs := clips.length
    dialogueNormalize := false
    bgGain := 0.4
    dialogueGain := 2.5
    finalNormalize := false
    durationFromBackground := true }

/-- `SUPPORTED_LANGUAGES` keys (src/core/translator.py lines 12-25). -/
def SUPPORTED_LANGUAGES : List String :=
  ["en", "hi", "ta", "te", "kn", "ml", "mr", "bn", "gu", "pa", "or", "as"]

/-- The structural validation of `Translator.__init__`
(src/core/translator.py lines 43-59): missing `GCP_PROJECT_ID`, missing
`GOOGLE_APPLICATION_CREDENTIALS`, a non-existent key file, or an unsupported
target language each raise (modelled as `Except.error` with the source's
message). -/
def translatorInit (gcp_project credentials_path : Option String)
    (creds_file_exists : Bool) (target_language : String) : Except String Unit :=
  if gcp_project.isNone then
    .error "GCP_PROJECT_ID not found. Please add it to your .env file."
  else if credentials_path.isNone then
    .error "GOOGLE_APPLICATION_CREDENTIALS not found. Please add it to your .env file."
  else if ¬ creds_file_exists then
    .error "Service account key file not found"
  else if ¬ SUPPORTED_LANGUAGES.contains target_language then
    .error "Unsupported language"
  else .ok ()

/-- The structural early returns of `generate_dubbed_audio`
(src/core/dubbing.py lines 40-51 and 105-107): empty segment list, failed
ElevenLabs client construction, or no generated TTS clips all return the
original `background_audio_path`; otherwise the function proceeds to write
`output_path`. -/
def generate_dubbed_audio_result (segments : List Segment) (el_init_ok : Bool)
    (tts_generated : Bool) (background_audio_path output_path : String) : String :=
  if segments.isEmpty then background_audio_path
  else if ¬ el_init_ok then background_audio_path
  else if ¬ tts_generated then background_audio_path
  else output_path

/-- The structural guards of `transcribe_audio`
(src/core/transcribe.py lines 301-313): missing `GCP_PROJECT_ID` or
`GOOGLE_APPLICATION_CREDENTIALS`, or a missing audio file, return `[]`
instead of raising. -/
def transcribe_audio_guard (project_id credentials_path : Option String)
    (audio_exists : Bool) (segments : List Segment) : List Segment :=
  if project_id.isNone ∨ credentials_path.isNone then []
  else if ¬ audio_exists then []
  else segments

/-- Step 4 of `process_video` (src/core/pipeline.py lines 67-74):
`Translator(...)` is constructed and `translate_segments` called with no
`try`/`except` around them, so a constructor error propagates out of the
orchestrator. -/
def process_video_translation (init : Except String Unit) (segs : List Segment)
    (m : List (ℚ × TransResult)) : Except String (List Segment) :=
  match init with
  | .error e => .error e
  | .ok _ => .ok (mergeTranslations segs m)

/-- The two-token stream falsifying claim C1 as stated: the first token ends
at time 0, so the scan's guarded `silence_gap` is 0 although the real gap to
the next token is 2s > 0.7s. -/
def cexWords : List Word :=
  [⟨"a", 0, 0, 1⟩, ⟨"b", 2, 2.3, 1⟩]

/-- The word stream of the spec's segmentation scenario:
`[{"Hi",0.0,0.4,0}, {"there",0.4,0.8,0}, {"Bob",2.0,2.3,1}]`. -/
def scenarioWords : List Word :=
  [⟨"Hi", 0, 0.4, 0⟩, ⟨"there", 0.4, 0.8, 0⟩, ⟨"Bob", 2.0, 2.3, 1⟩]

end VideoDub


namespace VideoDub

theorem gap_eq (prev_end word_start : ℚ) (h : 0 < prev_end) :
    gapOf prev_end word_start = word_start - prev_end := by
  simp [gapOf, h]

theorem exists_head_last {l : List Word} (hne : l ≠ []) :
    ∃ t0 tl, l.head? = some t0 ∧ l.getLast? = some tl := by
  cases l with
  | nil => exact absurd rfl hne
  | cons a rest =>
    exact ⟨a, (a :: rest).getLast (by simp), rfl, List.getLast?_eq_getLast _ (by simp)⟩

theorem head?_append_left {α : Type} (l : List α) (x t : α) (h : l.head? = some t) :
    (l ++ [x]).head? = some t := by
  cases l with
  | nil => exact absurd h (by simp)
  | cons a rest => simpa using h

theorem chainFrom_append (first w : Word) :
    ∀ (prev : Word) (rest : List Word) (tl : Word),
      chainFrom first prev rest → (prev :: rest).getLast? = some tl →
      okNextG first tl w → chainFrom first prev (rest ++ [w]) := by
  intro prev rest
  induction rest generalizing prev with
  | nil =>
    intro tl _ hl hok
    simp only [List.getLast?_singleton, Option.some.injEq] at hl
    exact ⟨hl ▸ hok, trivial⟩
  | cons b l ih =>
    intro tl hc hl hok
    obtain ⟨h1, h2⟩ := hc
    refine ⟨h1, ih b tl h2 ?_ hok⟩
    simpa only [List.getLast?_cons_cons] using hl

theorem tokensOk_append (ws : List Word) (w t0 tl : Word)
    (hok : tokensOk ws) (hh : ws.head? = some t0) (hl : ws.getLast? = some tl)
    (hnext : okNextG t0 tl w) :
    tokensOk (ws ++ [w]) := by
  cases ws with
  | nil => exact absurd hh (by simp)
  | cons a rest =>
    simp only [List.head?_cons, Option.some.injEq] at hh
    subst hh
    exact chainFrom_append a w a rest tl hok hl hnext

theorem finalizeSeg_tokens (st : SegState) :
    (finalizeSeg st).tokens = st.segment_words := rfl

theorem finalizeSeg_ok {done : List Word} {st : SegState} (h : SegInv done st)
    (hne : st.segment_words ≠ []) :
    SegShape (finalizeSeg st) ∧ tokensOk (finalizeSeg st).tokens := by
  obtain ⟨t0, tl, hh, hl⟩ := exists_head_last hne
  obtain ⟨hstart, hspk, hchain⟩ := h.openShape t0 hh
  refine ⟨⟨?_, ?_, ?_, rfl⟩, ?_⟩
  · simpa [finalizeSeg] using hne
  · intro u hu
    rw [finalizeSeg_tokens] at hu
    rw [hu] at hh
    injection hh with hh
    subst hh
    exact ⟨hstart, hspk⟩
  · intro u hu
    rw [finalizeSeg_tokens] at hu
    exact h.openLast u hu
  · simpa [finalizeSeg_tokens] using hchain

theorem segInv_step {done : List Word} {st : SegState} (w : Word) (h : SegInv done st) :
    SegInv (done ++ [w]) (stepWord st w) := by
  classical
  simp only [stepWord]
  split
  case isTrue hsplit =>
    obtain ⟨hfin_shape, hfin_chain⟩ := finalizeSeg_ok h hsplit.2
    refine ⟨?_, ?_, ?_, ?_, ?_⟩
    · show (st.segments ++ [finalizeSeg st]).flatMap SegmentOut.tokens ++ [w] = done ++ [w]
      rw [List.flatMap_append]
      simp only [List.flatMap_cons, List.flatMap_nil, List.append_nil, finalizeSeg_tokens]
      rw [List.append_assoc, ← h.partition]
      exact (List.append_assoc _ _ _).symm
    · intro s hs
      rcases List.mem_append.mp hs with hs | hs
      · exact h.shape s hs
      · simp only [List.mem_singleton] at hs
        exact hs ▸ hfin_shape
    · intro s hs
      rcases List.mem_append.mp hs with hs | hs
      · exact h.chain s hs
      · simp only [List.mem_singleton] at hs
        exact hs ▸ hfin_chain
    · intro t0 hh
      simp only [List.head?_cons, Option.some.injEq] at hh
      subst hh
      exact ⟨rfl, rfl, trivial⟩
    · intro tl hl
      simp only [List.getLast?_singleton, Option.some.injEq] at hl
      subst hl
      rfl
  case isFalse hnsplit =>
    split
    case isTrue hempty =>
      refine ⟨?_, h.shape, h.chain, ?_, ?_⟩
      · show st.segments.flatMap SegmentOut.tokens ++ [w] = done ++ [w]
        have := h.partition
        rw [hempty, List.append_nil] at this
        rw [this]
      · intro t0 hh
        simp only [List.head?_cons, Option.some.injEq] at hh
        subst hh
        exact ⟨rfl, rfl, trivial⟩
      · intro tl hl
        simp only [List.getLast?_singleton, Option.some.injEq] at hl
        subst hl
        rfl
    case isFalse hne =>
      have hnc : ¬(speakerId w ≠ st.current_speaker ∨
          gapOf st.prev_word_end w.start_offset > 0.7 ∨
          (w.start_offset - st.segment_start > 30.0 ∧
            gapOf st.prev_word_end w.start_offset > 0.3)) :=
        fun hA => hnsplit ⟨hA, hne⟩
      push_neg at hnc
      obtain ⟨hspk_eq, hgap_le, hlen⟩ := hnc
      obtain ⟨t0, tl, hh, hl⟩ := exists_head_last hne
      obtain ⟨hstart, hspk, hchain⟩ := h.openShape t0 hh
      have hprev : st.prev_word_end = tl.end_offset := h.openLast tl hl
      have hok : okNextG t0 tl w := by
        refine ⟨?_, ?_, ?_⟩
        · rw [hspk_eq, hspk]
        · rw [← hprev]
          exact hgap_le
        · rw [← hprev, ← hstart]
          intro hcon
          exact absurd hcon.2 (not_lt.mpr (hlen hcon.1))
      refine ⟨?_, h.shape, h.chain, ?_, ?_⟩
      · show st.segments.flatMap SegmentOut.tokens ++ (st.segment_words ++ [w]) = done ++ [w]
        rw [← List.append_assoc, h.partition]
      · intro u hu
        have hu' : (st.segment_words ++ [w]).head? = some t0 :=
          head?_append_left _ w t0 hh
        rw [hu'] at hu
        injection hu with hu
        exact hu ▸ ⟨hstart, hspk, tokensOk_append st.segment_words w t0 tl hchain hh hl hok⟩
      · intro u hu
        rw [List.getLast?_concat] at hu
        injection hu with hu
        subst hu
        rfl

theorem segInv_foldl (ws : List Word) :
    ∀ (done : List Word) (st : SegState), SegInv done st →
      SegInv (done ++ ws) (ws.foldl stepWord st) := by
  induction ws with
  | nil => intro done st h; simpa using h
  | cons w tail ih =>
    intro done st h
    have h' := segInv_step w h
    have := ih (done ++ [w]) (stepWord st w) h'
    simpa [List.append_assoc] using this

theorem buildSegments_sound (words : List Word) :
    (buildSegments words).flatMap SegmentOut.tokens = words ∧
    ∀ s ∈ buildSegments words, SegShape s ∧ tokensOk s.tokens := by
  cases words with
  | nil => simp [buildSegments]
  | cons w0 tail =>
    have h0 : SegInv []
        { current_speaker := 0, segment_words := [],
          segment_start := w0.start_offset, prev_word_end := w0.start_offset,
          segments := [] } := by
      refine ⟨rfl, ?_, ?_, ?_, ?_⟩ <;> simp
    have hF := segInv_foldl (w0 :: tail) [] _ h0
    simp only [List.nil_append] at hF
    simp only [buildSegments]
    split
    case isTrue hne =>
      obtain ⟨hfin_shape, hfin_chain⟩ := finalizeSeg_ok hF hne
      refine ⟨?_, ?_⟩
      · rw [List.flatMap_append]
        simp only [List.flatMap_cons, List.flatMap_nil, List.append_nil, finalizeSeg_tokens]
        exact hF.partition
      · intro s hs
        rcases List.mem_append.mp hs with hs | hs
        · exact ⟨hF.shape s hs, hF.chain s hs⟩
        · simp only [List.mem_singleton] at hs
          exact hs ▸ ⟨hfin_shape, hfin_chain⟩
    case isFalse hemp =>
      have hemp' : ((w0 :: tail).foldl stepWord _).segment_words = [] := not_not.mp hemp
      refine ⟨?_, fun s hs => ⟨hF.shape s hs, hF.chain s hs⟩⟩
      have := hF.partition
      rwa [hemp', List.append_nil] at this

theorem chainFrom_adjacent (first : Word) :
    ∀ (l : List Word) (prev0 : Word), chainFrom first prev0 l →
      ∀ (i : ℕ) (prev cur : Word),
        (prev0 :: l).get? i = some prev → (prev0 :: l).get? (i + 1) = some cur →
        okNextG first prev cur := by
  intro l
  induction l with
  | nil =>
    intro prev0 _ i prev cur _ h2
    cases i <;> simp [List.get?] at h2
  | cons b t ih =>
    intro prev0 hc i prev cur h1 h2
    obtain ⟨hok, hc'⟩ := hc
    cases i with
    | zero =>
      simp only [List.get?, Option.some.injEq] at h1 h2
      exact h1 ▸ h2 ▸ hok
    | succ j =>
      exact ih b hc' j prev cur h1 h2

theorem tokensOk_adjacent {l : List Word} {t0 prev cur : Word}
    (hok : tokensOk l) (hh : l.head? = some t0) (hadj : adjacentIn l prev cur) :
    okNextG t0 prev cur := by
  cases l with
  | nil => exact absurd hh (by simp)
  | cons a rest =>
    simp only [List.head?_cons, Option.some.injEq] at hh
    subst hh
    obtain ⟨i, h1, h2⟩ := hadj
    exact chainFrom_adjacent a rest a hok i prev cur h1 h2

theorem mem_tokens_mem_words {words : List Word} {s : SegmentOut} {t : Word}
    (hs : s ∈ buildSegments words) (ht : t ∈ s.tokens) : t ∈ words := by
  have hflat := (buildSegments_sound words).1
  rw [← hflat]
  exact List.mem_flatMap.mpr ⟨s, hs, ht⟩

/-- C1 (amended): for word streams whose tokens all end strictly after time 0
(so the code's guarded `silence_gap` equals the real gap), the scan never
emits a segment containing two consecutive tokens separated by a
speaker-change, a pause > 0.7s, or a (span > 30s ∧ gap > 0.3s) boundary. -/
theorem buildSegments_boundaryFree (words : List Word)
    (hpos : ∀ w ∈ words, 0 < w.end_offset) : boundaryFree words := by
  intro s hs t0 prev cur h0 hadj
  have hchain := ((buildSegments_sound words).2 s hs).2
  have hok := tokensOk_adjacent hchain h0 hadj
  have hprev_mem : prev ∈ s.tokens := by
    obtain ⟨i, h1, _⟩ := hadj
    exact List.get?_mem h1
  have hp : 0 < prev.end_offset := hpos prev (mem_tokens_mem_words hs hprev_mem)
  obtain ⟨ha, hb, hc⟩ := hok
  rw [gap_eq _ _ hp] at hb hc
  exact ⟨ha, hb, hc⟩

/-- C1 witness: the spec's scenario stream has positive token ends, and the
theorem instantiates on it. -/
theorem buildSegments_boundaryFree_witness : boundaryFree scenarioWords :=
  buildSegments_boundaryFree scenarioWords (by
    intro w hw
    simp only [scenarioWords, List.mem_cons, List.not_mem_nil, or_false] at hw
    rcases hw with h | h | h <;> (subst h; norm_num))

/-- C1 counterexample: on `cexWords` the first token ends at exactly time 0,
the guarded gap is therefore 0, and the scan keeps both tokens in one segment
although the real gap is 2s > 0.7s — the claim as stated is false. -/
theorem buildSegments_boundaryFree_cex : ¬ boundaryFree cexWords := by
  intro h
  have hseg : buildSegments cexWords =
      [⟨0, 2.3, 1, "a b", cexWords⟩] := by
    norm_num [buildSegments, cexWords, stepWord, finalizeSeg, speakerId, gapOf]
    rfl
  have hmem : (⟨0, 2.3, 1, "a b", cexWords⟩ : SegmentOut) ∈ buildSegments cexWords := by
    rw [hseg]; exact List.mem_singleton.mpr rfl
  have := h _ hmem ⟨"a", 0, 0, 1⟩ ⟨"a", 0, 0, 1⟩ ⟨"b", 2, 2.3, 1⟩ rfl ⟨0, rfl, rfl⟩
  have hgap := this.2.1
  norm_num at hgap

/-- C2: the scan yields `[]` on an empty token stream; every token of the
stream ends up in exactly one output segment in order (so the final
in-progress segment is always flushed); and each segment has `start` = first
token's start, `end` = last included token's end, `speaker` = the speaker
active when the segment opened (the first token's id), and `transcript` = the
tokens' texts joined with single spaces. -/
theorem buildSegments_shape :
    buildSegments [] = [] ∧
    ∀ words : List Word,
      (buildSegments words).flatMap SegmentOut.tokens = words ∧
      ∀ s ∈ buildSegments words, s.tokens ≠ [] ∧
        (∀ t0, s.tokens.head? = some t0 →
          s.start = t0.start_offset ∧ s.speaker = speakerId t0) ∧
        (∀ tl, s.tokens.getLast? = some tl → s.end_ = tl.end_offset) ∧
        s.transcript = String.intercalate " " (s.tokens.map Word.word) := by
  refine ⟨rfl, fun words => ⟨(buildSegments_sound words).1, fun s hs => ?_⟩⟩
  exact ((buildSegments_sound words).2 s hs).1

theorem scenario_segments :
    buildSegments scenarioWords =
      [⟨0, 0.8, 0, "Hi there", [⟨"Hi", 0, 0.4, 0⟩, ⟨"there", 0.4, 0.8, 0⟩]⟩,
       ⟨2.0, 2.3, 1, "Bob", [⟨"Bob", 2.0, 2.3, 1⟩]⟩] := by
  norm_num [buildSegments, scenarioWords, stepWord, finalizeSeg, speakerId, gapOf]
  rfl

/-- C2 witness: instantiated on the spec's scenario stream — the "Hi there"
segment is produced, all tokens are covered, and its fields match its
tokens. -/
theorem buildSegments_shape_witness :
    (buildSegments scenarioWords).flatMap SegmentOut.tokens = scenarioWords ∧
    (⟨0, 0.8, 0, "Hi there",
      [⟨"Hi", 0, 0.4, 0⟩, ⟨"there", 0.4, 0.8, 0⟩]⟩ : SegmentOut).start =
      (⟨"Hi", 0, 0.4, 0⟩ : Word).start_offset ∧
    (⟨0, 0.8, 0, "Hi there",
      [⟨"Hi", 0, 0.4, 0⟩, ⟨"there", 0.4, 0.8, 0⟩]⟩ : SegmentOut).end_ =
      (⟨"there", 0.4, 0.8, 0⟩ : Word).end_offset := by
  have hmem : (⟨0, 0.8, 0, "Hi there",
      [⟨"Hi", 0, 0.4, 0⟩, ⟨"there", 0.4, 0.8, 0⟩]⟩ : SegmentOut) ∈
      buildSegments scenarioWords := by
    rw [scenario_segments]
    exact List.mem_cons_self _ _
  have h := (buildSegments_shape.2 scenarioWords).2 _ hmem
  exact ⟨(buildSegments_shape.2 scenarioWords).1,
    (h.2.1 ⟨"Hi", 0, 0.4, 0⟩ rfl).1,
    h.2.2.1 ⟨"there", 0.4, 0.8, 0⟩ rfl⟩

/-- C3: the tempo transform fires exactly when
`measured > target * 1.05 ∧ target > 0.5` with `target = end - start`; when it
fires the factor is `min(measured / target, 1.3)`, which always lies in
`[1.0, 1.3]`; when it does not fire the original clip is kept. -/
theorem tempo_correction_policy (seg : Segment) (current_duration : ℚ) :
    ((tempoDecision current_duration (targetDuration seg)).isSome ↔
      (current_duration > targetDuration seg * 1.05 ∧ targetDuration seg > 0.5)) ∧
    (∀ f, tempoDecision current_duration (targetDuration seg) = some f →
      f = min (current_duration / targetDuration seg) 1.3 ∧ 1 ≤ f ∧ f ≤ 1.3) ∧
    (tempoDecision current_duration (targetDuration seg) = none →
      ∀ orig fast, finalClip current_duration (targetDuration seg) orig fast = orig) := by
  set t := targetDuration seg with ht_def
  refine ⟨?_, ?_, ?_⟩
  · by_cases hcond : current_duration > t * 1.05 ∧ t > 0.5 <;>
      simp [tempoDecision, hcond]
  · intro f hf
    by_cases hcond : current_duration > t * 1.05 ∧ t > 0.5
    · rw [tempoDecision, if_pos hcond] at hf
      injection hf with hf
      subst hf
      have ht0 : (0 : ℚ) < t := lt_trans (by norm_num) hcond.2
      have hratio : (1.05 : ℚ) < current_duration / t := by
        rw [lt_div_iff₀ ht0]
        linarith [hcond.1]
      refine ⟨rfl, le_min (by linarith) (by norm_num), min_le_right _ _⟩
    · rw [tempoDecision, if_neg hcond] at hf
      exact absurd hf (by simp)
  · intro hnone orig fast
    simp [finalClip, hnone]

/-- C3 witness: the spec's scenario — segment 10.0s-12.0s, measured 3.0s —
fires the correction at factor `min(3/2, 1.3) = 1.3 ∈ [1, 1.3]`. -/
theorem tempo_correction_policy_witness :
    tempoDecision 3 (targetDuration ⟨10, 12, 0, "t", none⟩) = some 1.3 ∧
    (1.3 : ℚ) = min ((3 : ℚ) / targetDuration ⟨10, 12, 0, "t", none⟩) 1.3 ∧
    (1 : ℚ) ≤ 1.3 ∧ (1.3 : ℚ) ≤ 1.3 := by
  have hsome : tempoDecision 3 (targetDuration ⟨10, 12, 0, "t", none⟩) = some 1.3 := by
    norm_num [tempoDecision, targetDuration, speed_factor, min_def]
  have h := (tempo_correction_policy ⟨10, 12, 0, "t", none⟩ 3).2.1 1.3 hsome
  exact ⟨hsome, h.1, h.2.1, h.2.2⟩

theorem max3_pyInt_eq_max3_floor (q : ℚ) : max 3 (pyInt q) = max 3 ⌊q⌋ := by
  by_cases hq : 0 ≤ q
  · simp [pyInt, hq]
  · push_neg at hq
    have h1 : pyInt q = ⌈q⌉ := by simp [pyInt, not_le.mpr hq]
    have hceil : (⌈q⌉ : ℤ) ≤ 0 := Int.ceil_le.mpr (by exact_mod_cast hq.le)
    have hfloor : (⌊q⌋ : ℤ) ≤ 0 := Int.floor_nonpos hq.le
    rw [h1, max_eq_left (le_trans hceil (by norm_num)),
      max_eq_left (le_trans hfloor (by norm_num))]

/-- C8: `max_words(start, end) = max(3, floor((end - start) * 2.5))`, is
always at least 3, and is monotone in the duration `end - start`. -/
theorem max_words_spec (start end_ : ℚ) :
    max_words start end_ = max 3 ⌊(end_ - start) * 2.5⌋ ∧
    3 ≤ max_words start end_ ∧
    ∀ start' end' : ℚ, end_ - start ≤ end' - start' →
      max_words start end_ ≤ max_words start' end' := by
  refine ⟨max3_pyInt_eq_max3_floor _, le_max_left _ _, ?_⟩
  intro start' end' hle
  rw [max_words, max_words, max3_pyInt_eq_max3_floor, max3_pyInt_eq_max3_floor]
  exact max_le_max le_rfl
    (Int.floor_le_floor (mul_le_mul_of_nonneg_right hle (by norm_num)))

/-- C8 witness: a 2s segment gets a budget of 5 words, and lengthening the
duration to 4s can only raise the budget. -/
theorem max_words_spec_witness :
    max_words 0 2 = 5 ∧ (3 : ℤ) ≤ max_words 0 2 ∧ max_words 0 2 ≤ max_words 0 4 := by
  have h := max_words_spec 0 2
  refine ⟨?_, h.2.1, h.2.2 0 4 (by norm_num)⟩
  rw [h.1]
  norm_num

theorem pyInt_of_nonneg {q : ℚ} (h : 0 ≤ q) : pyInt q = ⌊q⌋ := by
  simp [pyInt, h]

/-- C4 (amended): the compositor's mix specification delays each clip by
`int(clip.start * 1000)` milliseconds — Python truncation toward zero, i.e.
`⌊clip.start * 1000⌋` for the non-negative starts — not by rounding; both the
dialogue `amix` and the final `amix` run with `normalize=0` (no automatic 1/N
volume division); the background gain is 0.4 and the dialogue gain 2.5
regardless of clip count; and the output duration is taken from the
background track (`duration=first`). -/
theorem mix_spec_policy (clips : List TTSClip) (_hne : clips ≠ []) :
    (buildMixSpec clips).delays = clips.map (fun c => pyInt (c.start * 1000)) ∧
    (∀ c ∈ clips, 0 ≤ c.start → pyInt (c.start * 1000) = ⌊c.start * 1000⌋) ∧
    (buildMixSpec clips).dialogueNormalize = false ∧
    (buildMixSpec clips).finalNormalize = false ∧
    (buildMixSpec clips).bgGain = 0.4 ∧
    (buildMixSpec clips).dialogueGain = 2.5 ∧
    (∀ clips' : List TTSClip,
      (buildMixSpec clips').dialogueGain = (buildMixSpec clips).dialogueGain) ∧
    (buildMixSpec clips).durationFromBackground = true := by
  refine ⟨rfl, ?_, rfl, rfl, rfl, rfl, fun _ => rfl, rfl⟩
  intro c _ hc
  exact pyInt_of_nonneg (by positivity)

/-- C4 witness: the spec's scenario — clips at 0.0s, 5.0s, 9.0s — yields
delays 0, 5000, 9000 ms and dialogue gain 2.5. -/
theorem mix_spec_policy_witness :
    (buildMixSpec [⟨"a", 0⟩, ⟨"b", 5⟩, ⟨"c", 9⟩]).delays = [0, 5000, 9000] ∧
    (buildMixSpec [⟨"a", 0⟩, ⟨"b", 5⟩, ⟨"c", 9⟩]).dialogueGain = 2.5 := by
  have h := mix_spec_policy [⟨"a", 0⟩, ⟨"b", 5⟩, ⟨"c", 9⟩] (by simp)
  refine ⟨?_, h.2.2.2.2.2.1⟩
  rw [h.1]
  norm_num [pyInt]

/-- C4 counterexample: a clip starting at 2/3 s is delayed by
`int(2000/3) = 666` ms, while the claim's `round(clip.start * 1000)` is 667 —
the code truncates, it does not round. -/
theorem mix_spec_round_cex :
    (buildMixSpec [⟨"p", 2/3⟩]).delays = [666] ∧
    round ((2 / 3 : ℚ) * 1000) = 667 ∧ (666 : ℤ) ≠ 667 := by
  refine ⟨?_, ?_, by norm_num⟩
  · show [pyInt ((2 / 3 : ℚ) * 1000)] = [666]
    norm_num [pyInt]
  · rw [round_eq]
    norm_num

/-- C5: the translation merge returns exactly one output segment per input
segment, in order, each being the input either overwritten by its translation
(when its `start` key is in the response map) or kept verbatim; a response
entry whose key matches no segment is ignored; a segment whose key the
response omits keeps its source transcript. -/
theorem translate_segments_merge (segments : List Segment)
    (m : List (ℚ × TransResult)) :
    (mergeTranslations segments m).length = segments.length ∧
    (∀ i : ℕ, (mergeTranslations segments m).get? i =
      (segments.get? i).map (mergeOne m)) ∧
    (∀ k t, (∀ seg ∈ segments, seg.start ≠ k) →
      mergeTranslations segments ((k, t) :: m) = mergeTranslations segments m) ∧
    (∀ seg ∈ segments, dictFind m seg.start = none → mergeOne m seg = seg) := by
  refine ⟨List.length_map _ _, fun i => List.get?_map _ _ _, ?_, ?_⟩
  · intro k t hk
    refine List.map_congr_left ?_
    intro seg hseg
    simp [mergeOne, dictFind, hk seg hseg]
  · intro seg _ hnone
    simp [mergeOne, hnone]

/-- C5 witness: one segment at key 0; a stray response entry at key 5 is
ignored, and with an empty response the segment keeps its source text. -/
theorem translate_segments_merge_witness :
    mergeTranslations [⟨0, 1, 0, "hello", none⟩] [((5 : ℚ), ⟨"x", "sad"⟩)] =
      mergeTranslations [⟨0, 1, 0, "hello", none⟩] [] ∧
    mergeOne [] ⟨0, 1, 0, "hello", none⟩ = ⟨0, 1, 0, "hello", none⟩ := by
  have h := translate_segments_merge [⟨0, 1, 0, "hello", none⟩] []
  refine ⟨h.2.2.1 5 ⟨"x", "sad"⟩ ?_, h.2.2.2 _ (List.mem_singleton.mpr rfl) rfl⟩
  intro seg hseg
  rw [List.mem_singleton] at hseg
  subst hseg
  norm_num

/-- C6: when every attempt for a batch fails (exception or empty parse), the
retry loop yields no map entries, and any segment whose key is absent from
the final map comes out of the merge unchanged — source-language transcript
kept and `emotion` still `none`, observably distinguishing it from translated
segments, which always carry `emotion = some _`; the merge still emits every
segment, so the pipeline continues. -/
theorem translate_failed_batch (segs : List Segment)
    (m : List (ℚ × TransResult)) (o : ℕ → Outcome)
    (hfail : ∀ i, i < MAX_RETRIES → attemptFailed (o i)) :
    (runBatchAttempts o).2 = none ∧
    (mergeTranslations segs m).length = segs.length ∧
    (∀ seg ∈ segs, dictFind m seg.start = none →
      mergeOne m seg = seg ∧ (mergeOne m seg).transcript = seg.transcript ∧
      (mergeOne m seg).emotion = seg.emotion) ∧
    (∀ seg ∈ segs, ∀ t, dictFind m seg.start = some t →
      (mergeOne m seg).emotion = some t.emotion) := by
  refine ⟨?_, List.length_map _ _, ?_, ?_⟩
  · have h0 := hfail 0 (by norm_num [MAX_RETRIES])
    have h1 := hfail 1 (by norm_num [MAX_RETRIES])
    have h2 := hfail 2 (by norm_num [MAX_RETRIES])
    have hrange : List.range MAX_RETRIES = [0, 1, 2] := rfl
    rcases h0 with h0 | h0 <;> rcases h1 with h1 | h1 <;> rcases h2 with h2 | h2 <;>
      simp [runBatchAttempts, MAX_RETRIES, show List.range 3 = [0, 1, 2] from rfl,
        List.foldl_cons, List.foldl_nil, attemptStep, h0, h1, h2]
  · intro seg _ hnone
    have : mergeOne m seg = seg := by simp [mergeOne, hnone]
    exact ⟨this, by rw [this], by rw [this]⟩
  · intro seg _ t ht
    simp [mergeOne, ht]

/-- C6 witness: three exceptions exhaust the retries with no entries; the
lone segment survives the merge with its source text and no emotion mark. -/
theorem translate_failed_batch_witness :
    (runBatchAttempts fun _ => Outcome.exn).2 = none ∧
    mergeOne [] ⟨0, 1, 0, "source text", none⟩ = ⟨0, 1, 0, "source text", none⟩ ∧
    (mergeTranslations [⟨0, 1, 0, "source text", none⟩] []).length = 1 := by
  have h := translate_failed_batch [⟨0, 1, 0, "source text", none⟩] [] (fun _ => Outcome.exn)
    (fun i _ => Or.inl rfl)
  exact ⟨h.1, (h.2.2.1 _ (List.mem_singleton.mpr rfl) rfl).1, h.2.1⟩

theorem toBatches_join (l : List Segment) : (toBatches l).flatten = l := by
  have key : ∀ (n : ℕ) (l : List Segment), l.length = n → (toBatches l).flatten = l := by
    intro n
    induction n using Nat.strong_induction_on with
    | _ n ih =>
      intro l hn
      by_cases h : l = []
      · subst h; simp [toBatches]
      · rw [toBatches, if_neg h]
        have hlt : (l.drop BATCH_SIZE).length < l.length := by
          simp only [List.length_drop]
          exact Nat.sub_lt (List.length_pos.mpr h) (by norm_num [BATCH_SIZE])
        rw [List.flatten_cons, ih _ (hn ▸ hlt) _ rfl]
        exact List.take_append_drop _ l
  exact key l.length l rfl

theorem toBatches_sizes (l : List Segment) :
    ∀ b ∈ toBatches l, b ≠ [] ∧ b.length ≤ BATCH_SIZE := by
  have key : ∀ (n : ℕ) (l : List Segment), l.length = n →
      ∀ b ∈ toBatches l, b ≠ [] ∧ b.length ≤ BATCH_SIZE := by
    intro n
    induction n using Nat.strong_induction_on with
    | _ n ih =>
      intro l hn
      by_cases h : l = []
      · subst h; simp [toBatches]
      · rw [toBatches, if_neg h]
        intro b hb
        rcases List.mem_cons.mp hb with hb | hb
        · subst hb
          refine ⟨?_, List.length_take_le _ _⟩
          simp [List.take_eq_nil_iff, h, BATCH_SIZE]
        · have hlt : (l.drop BATCH_SIZE).length < l.length := by
            simp only [List.length_drop]
            exact Nat.sub_lt (List.length_pos.mpr h) (by norm_num [BATCH_SIZE])
          exact ih _ (hn ▸ hlt) _ rfl b hb
  exact key l.length l rfl

/-- C7 (amended): segments are submitted in order in batches of (at most) 5;
a batch consults at most 3 attempts; after an attempt that raised, the loop
backs off `5 * 2^attempt` seconds before the retry (5s, then 10s; the third
failed attempt aborts the batch with no back-off, so 20s never occurs); an
attempt whose response parsed empty first sleeps a fixed 2s and then the same
back-off; a successful batch is followed by a fixed 2s cooldown. -/
theorem translate_batching_retry :
    (∀ l : List Segment, (toBatches l).flatten = l ∧
      ∀ b ∈ toBatches l, b ≠ [] ∧ b.length ≤ 5) ∧
    (∀ o o' : ℕ → Outcome, (∀ i, i < MAX_RETRIES → o i = o' i) →
      runBatchAttempts o = runBatchAttempts o') ∧
    (∀ (o : ℕ → Outcome) (e : List (ℚ × TransResult)), e ≠ [] →
      (o 0 = .parsed e → runBatchAttempts o = ([2], some e)) ∧
      (o 0 = .exn → o 1 = .parsed e → runBatchAttempts o = ([5, 2], some e)) ∧
      (o 0 = .exn → o 1 = .exn → o 2 = .parsed e →
        runBatchAttempts o = ([5, 10, 2], some e)) ∧
      (o 0 = .parsed [] → o 1 = .parsed e →
        runBatchAttempts o = ([2, 5, 2], some e))) ∧
    (∀ o : ℕ → Outcome, o 0 = .exn → o 1 = .exn → o 2 = .exn →
      runBatchAttempts o = ([5, 10], none)) := by
  refine ⟨fun l => ⟨toBatches_join l, toBatches_sizes l⟩, ?_, ?_, ?_⟩
  · intro o o' h
    simp only [runBatchAttempts, MAX_RETRIES, show List.range 3 = [0, 1, 2] from rfl,
      List.foldl_cons, List.foldl_nil, attemptStep]
    rw [h 0 (by norm_num [MAX_RETRIES]), h 1 (by norm_num [MAX_RETRIES]),
      h 2 (by norm_num [MAX_RETRIES])]
  · intro o e he
    refine ⟨?_, ?_, ?_, ?_⟩ <;> intro h0
    · simp [runBatchAttempts, MAX_RETRIES, show List.range 3 = [0, 1, 2] from rfl,
        List.foldl_cons, List.foldl_nil, attemptStep, h0, he]
    · intro h1
      simp [runBatchAttempts, MAX_RETRIES, show List.range 3 = [0, 1, 2] from rfl,
        List.foldl_cons, List.foldl_nil, attemptStep, h0, h1, he]
      try norm_num
    · intro h1 h2
      simp [runBatchAttempts, MAX_RETRIES, show List.range 3 = [0, 1, 2] from rfl,
        List.foldl_cons, List.foldl_nil, attemptStep, h0, h1, h2, he]
      try norm_num
    · intro h1
      simp [runBatchAttempts, MAX_RETRIES, show List.range 3 = [0, 1, 2] from rfl,
        List.foldl_cons, List.foldl_nil, attemptStep, h0, h1, he]
      try norm_num
  · intro o h0 h1 h2
    simp [runBatchAttempts, MAX_RETRIES, show List.range 3 = [0, 1, 2] from rfl,
      List.foldl_cons, List.foldl_nil, attemptStep, h0, h1, h2]
    try norm_num

/-- C7 witness: an exception on the first attempt and a successful second
attempt give the sleep trace 5s (back-off) then 2s (cooldown); batching of a
6-element list is [5, 1] in order. -/
theorem translate_batching_retry_witness :
    runBatchAttempts (fun i => if i = 0 then Outcome.exn
      else Outcome.parsed [((0 : ℚ), ⟨"t", "neutral"⟩)]) =
      ([5, 2], some [((0 : ℚ), ⟨"t", "neutral"⟩)]) ∧
    (toBatches [⟨0, 1, 0, "a", none⟩, ⟨1, 2, 0, "b", none⟩, ⟨2, 3, 0, "c", none⟩,
      ⟨3, 4, 0, "d", none⟩, ⟨4, 5, 0, "e", none⟩, ⟨5, 6, 0, "f", none⟩]).flatten =
      [⟨0, 1, 0, "a", none⟩, ⟨1, 2, 0, "b", none⟩, ⟨2, 3, 0, "c", none⟩,
      ⟨3, 4, 0, "d", none⟩, ⟨4, 5, 0, "e", none⟩, ⟨5, 6, 0, "f", none⟩] := by
  refine ⟨((translate_batching_retry.2.2.1 _ [((0 : ℚ), ⟨"t", "neutral"⟩)]
    (by simp)).2.1 rfl rfl), (translate_batching_retry.1 _).1⟩

/-- C7 counterexample: with every attempt parsing empty, the actual sleep
trace is [2, 5, 2, 10, 2] — each empty response adds a fixed 2s sleep on top
of the exponential back-off — not the claimed pure back-off schedule
[5, 10]. -/
theorem translate_batching_retry_cex :
    runBatchAttempts (fun _ => Outcome.parsed []) = ([2, 5, 2, 10, 2], none) ∧
    ([2, 5, 2, 10, 2] : List ℚ) ≠ [5, 10] := by
  constructor
  · simp [runBatchAttempts, MAX_RETRIES, show List.range 3 = [0, 1, 2] from rfl,
      List.foldl_cons, List.foldl_nil, attemptStep]
    try norm_num
  · intro h
    have := congrArg List.length h
    simp at this

/-- C9 (amended): an empty segment list or a failed ElevenLabs client
construction makes the synthesis-and-mix stage return the original background
path, and missing GCP transcription credentials make the transcription stage
return an empty list; but a missing translation credential makes
`Translator.__init__` raise, and `process_video` has no handler, so the error
propagates past the orchestrator boundary. -/
theorem structural_failure_policy :
    (∀ (el_ok tts : Bool) (bg out : String),
      generate_dubbed_audio_result [] el_ok tts bg out = bg) ∧
    (∀ (segs : List Segment) (tts : Bool) (bg out : String),
      generate_dubbed_audio_result segs false tts bg out = bg) ∧
    (∀ (creds : Option String) (ex : Bool) (segs : List Segment),
      transcribe_audio_guard none creds ex segs = []) ∧
    (∀ (pid : Option String) (ex : Bool) (segs : List Segment),
      transcribe_audio_guard pid none ex segs = []) ∧
    (∀ (credsPath : Option String) (ex : Bool) (lang : String)
        (segs : List Segment) (m : List (ℚ × TransResult)),
      process_video_translation (translatorInit none credsPath ex lang) segs m =
        Except.error "GCP_PROJECT_ID not found. Please add it to your .env file.") := by
  refine ⟨?_, ?_, ?_, ?_, ?_⟩
  · intro el_ok tts bg out
    rfl
  · intro segs tts bg out
    simp [generate_dubbed_audio_result]
  · intro creds ex segs
    simp [transcribe_audio_guard]
  · intro pid ex segs
    simp [transcribe_audio_guard]
  · intro credsPath ex lang segs m
    rfl

/-- C9 counterexample: with `GCP_PROJECT_ID` unset (and everything else in
place), the translation stage's constructor raises and the orchestrator
returns that error — not the claimed identity/no-op result. -/
theorem structural_failure_cex :
    process_video_translation (translatorInit none (some "key.json") true "hi") [] [] =
      Except.error "GCP_PROJECT_ID not found. Please add it to your .env file." ∧
    process_video_translation (translatorInit none (some "key.json") true "hi") [] [] ≠
      Except.ok [] := by
  exact ⟨rfl, by simp [process_video_translation, translatorInit]⟩

/-- C10 (amended): the translation merge changes only `transcript` and
`emotion` — `start`, `end` and `speaker` of every segment are preserved
through it — but the timing fields are not immutable after the scan creates a
segment: `transcribe_audio` shifts `start`/`end` by the chunk offset right
after creation. -/
theorem pipeline_frame_effect (segments : List Segment)
    (m : List (ℚ × TransResult)) :
    (mergeTranslations segments m).length = segments.length ∧
    ∀ (i : ℕ) (seg seg' : Segment), segments.get? i = some seg →
      (mergeTranslations segments m).get? i = some seg' →
      seg'.start = seg.start ∧ seg'.end_ = seg.end_ ∧ seg'.speaker = seg.speaker ∧
      ((seg'.transcript = seg.transcript ∧ seg'.emotion = seg.emotion) ∨
        ∃ t, dictFind m seg.start = some t ∧
          seg'.transcript = t.text ∧ seg'.emotion = some t.emotion) := by
  refine ⟨List.length_map _ _, ?_⟩
  intro i seg seg' hi hi'
  rw [show mergeTranslations segments m = segments.map (mergeOne m) from rfl,
    List.get?_map, hi] at hi'
  injection hi' with hi'
  subst hi'
  cases hfind : dictFind m seg.start with
  | none => simp [mergeOne, hfind]
  | some t => simp [mergeOne, hfind]

/-- C10 witness: a segment at key 1 is translated in place of its text while
`start`, `end` and `speaker` come through the merge unchanged. -/
theorem pipeline_frame_effect_witness :
    (mergeTranslations [⟨1, 2, 3, "x", none⟩] [(1, ⟨"translated", "happy"⟩)]).get? 0 =
      some ⟨1, 2, 3, "translated", some "happy"⟩ ∧
    (⟨1, 2, 3, "translated", some "happy"⟩ : Segment).start =
      (⟨1, 2, 3, "x", none⟩ : Segment).start ∧
    (⟨1, 2, 3, "translated", some "happy"⟩ : Segment).end_ =
      (⟨1, 2, 3, "x", none⟩ : Segment).end_ ∧
    (⟨1, 2, 3, "translated", some "happy"⟩ : Segment).speaker =
      (⟨1, 2, 3, "x", none⟩ : Segment).speaker := by
  have h2 : (mergeTranslations [⟨1, 2, 3, "x", none⟩]
      [(1, ⟨"translated", "happy"⟩)]).get? 0 =
      some ⟨1, 2, 3, "translated", some "happy"⟩ := by
    simp [mergeTranslations, mergeOne, dictFind, List.get?]
  have h := (pipeline_frame_effect [⟨1, 2, 3, "x", none⟩]
    [(1, ⟨"translated", "happy"⟩)]).2 0 _ _ rfl h2
  exact ⟨h2, h.1, h.2.1, h.2.2.1⟩

/-- C10 counterexample: the scan creates a segment with `start = 5`,
`end = 6`; the chunk-offset pass of `transcribe_audio` then mutates the same
segment's timing fields to 245/246 — `start`/`end` do change after creation
by the segment builder. -/
theorem pipeline_frame_effect_cex :
    (buildSegments [⟨"hi", 5, 6, 1⟩]).map toSegment = [⟨5, 6, 1, "hi", none⟩] ∧
    adjustSegments 240 [⟨5, 6, 1, "hi", none⟩] = [⟨245, 246, 1, "hi", none⟩] ∧
    (245 : ℚ) ≠ 5 := by
  refine ⟨?_, ?_, by norm_num⟩
  · norm_num [buildSegments, stepWord, finalizeSeg, speakerId, gapOf, toSegment]
    try rfl
  · norm_num [adjustSegments]
    try rfl

end VideoDub
